import Mathlib

/-!
Verification development for the bunkbot repository.

The definitions below are a shallow embedding of the repository's Python
source.  Pure functions become Lean functions; stateful methods become
explicit state-passing functions; Python floats are modelled as rationals
(every numeric value that occurs in the modelled code paths is exactly
representable); each `time.time()` call site gets its own explicit
timestamp argument, so one engine invocation carries one reading per call
site (a real clock yields nondecreasing readings, which theorems assume
only where needed); fallible code returns `Option`/`Except`.

The persistent storage layer (`src/storage/db.py`) is not present in the
source tree; its operations are modelled from the spec's §4.4 contract and
are marked `Modelled from the spec` in their doc comments.
-/

/- The Batteries rational-number operations are irreducible by default,
which blocks kernel evaluation of concrete traces; restore the default
reducibility for this file so that `decide` can run the model. -/
attribute [local semireducible] Rat.mul Rat.add Rat.sub Rat.inv

/-! ### Association-list state helpers -/

/-- Lookup of a key in an association list (models Python dict / tinydb
table access keyed by member name). -/
def getEntry {α : Type} (l : List (String × α)) (k : String) : Option α :=
  match l with
  | [] => none
  | (k', v) :: t => if k' = k then some v else getEntry t k

/-- Insert-or-overwrite of a key in an association list (models Python
dict assignment / tinydb record update). -/
def setEntry {α : Type} (l : List (String × α)) (k : String) (v : α) : List (String × α) :=
  match l with
  | [] => [(k, v)]
  | (k', v') :: t => if k' = k then (k, v) :: t else (k', v') :: setEntry t k v

/-! ### RPG engine (src/cogs/rpg/rpg.py) -/

/-- Tuning constant `XP_CONST = 5` from rpg.py. -/
def XP_CONST : ℚ := 5

/-- Tuning constant `UPDATE_CAP = 60` from rpg.py. -/
def UPDATE_CAP : ℚ := 60

/-- Tuning constant `TIMER_MINUTES = 1` from rpg.py. -/
def TIMER_MINUTES : ℚ := 1

/-- Python's `round(x, 2)` (round to 2 decimal places, ties to even),
modelled on exact rationals. -/
def pyRound2 (x : ℚ) : ℚ :=
  let y := x * 100
  let n : ℤ := Rat.floor y
  let frac := y - n
  if frac < 1 / 2 then (n : ℚ) / 100
  else if 1 / 2 < frac then ((n + 1 : ℤ) : ℚ) / 100
  else if n % 2 = 0 then (n : ℚ) / 100 else ((n + 1 : ℤ) : ℚ) / 100

/-- `RPG.calc_req_xp(level)` from rpg.py:
`(XP_CONST * level * level) - (XP_CONST * level) + round(level / 2, 2)`. -/
def calc_req_xp (level : ℕ) : ℚ :=
  XP_CONST * level * level - XP_CONST * level + pyRound2 ((level : ℚ) / 2)

/-- `RPG.level_up(xp, level)` from rpg.py: `xp >= self.calc_req_xp(level)`. -/
def level_up (xp : ℚ) (level : ℕ) : Bool :=
  decide (calc_req_xp level ≤ xp)

/-- An in-memory activity window: the engine's `self.config[member.name]`
dict entry `{"value": ..., "last_update": ...}`. -/
structure Window where
  value : ℚ
  last_update : ℚ
deriving DecidableEq

/-- A stored user progression record (xp float, level int, per spec §3). -/
structure DBUser where
  xp : ℚ
  level : ℕ
deriving DecidableEq

/-- The engine's in-memory `self.config` map, member name to window. -/
abbrev Config : Type := List (String × Window)

/-- The per-user progression table of the storage layer. -/
abbrev DB : Type := List (String × DBUser)

/-- A member as the modelled engine code observes it: `member.name` and
`str(member.status)`. -/
structure Member where
  name : String
  status : String

/-- Modelled from the spec: `database.get_user(member)` of the missing
`src/storage/db.py` — "fetch or lazily create a user progression record
(xp=0, level=1) for the given identity", returning the record. -/
def db_get_user (db : DB) (m : String) : DB × DBUser :=
  match getEntry db m with
  | some u => (db, u)
  | none => ((setEntry db m ⟨0, 1⟩ : DB), (⟨0, 1⟩ : DBUser))

/-- Modelled from the spec: `database.update_user_xp(member, new_xp_value)`
of the missing `src/storage/db.py` — "overwrite the stored xp value for a
user, returning the updated record" (the record is lazily created first
when absent, per the `get_user` contract). -/
def db_update_user_xp (db : DB) (m : String) (v : ℚ) : DB × DBUser :=
  let r := db_get_user db m
  let u : DBUser := ⟨v, r.2.level⟩
  ((setEntry r.1 m u : DB), u)

/-- Modelled from the spec: `database.update_user_level(member)` of the
missing `src/storage/db.py` — "recompute and persist the user's level from
its stored xp (see §4.9 formula), returning the updated record"; §4.8 says
the level "is advanced in storage" when the stored xp clears
`required_xp(current_level + 1)`, which is the engine's own `level_up`
check, so one call advances the stored level by one step when cleared. -/
def db_update_user_level (db : DB) (m : String) : DB × DBUser :=
  let r := db_get_user db m
  let u : DBUser :=
    if level_up r.2.xp (r.2.level + 1) then ⟨r.2.xp, r.2.level + 1⟩ else r.2
  ((setEntry r.1 m u : DB), u)

/-- The result of one engine invocation: the new in-memory config, the new
stored table, and the level-up hook firings `(member name, new level)` in
order. -/
structure EngineResult where
  config : Config
  db : DB
  events : List (String × ℕ)
deriving DecidableEq

/-- The clock readings of one `RPG.update_user_xp` invocation, one per
`time.time()` call site in the source: `tCreate` for the window creation
in the `except` branch, `tDiff` for the `diff` computation, and `tReset`
for the window reset at the end of the flush branch.  A real clock yields
`tCreate ≤ tDiff ≤ tReset`; the readings on a path the invocation does not
take are unused. -/
structure ClockReads where
  tCreate : ℚ
  tDiff : ℚ
  tReset : ℚ
deriving DecidableEq

/-- `RPG.update_user_xp(member, value, duel)` from rpg.py, with the
invocation's `time.time()` readings passed in as `clk`.  The `try/except`
window lookup becomes a match; creating the window on first sight stores
`value` and the creation reading; `diff` subtracts the window timestamp
from the (possibly later) second reading, so a freshly created window can
re-enter the sub-minute branch when `clk.tCreate < clk.tDiff`; that branch
adds `value` only while the accumulator is strictly below `UPDATE_CAP`,
and the flush branch writes the accumulator to storage, applies at most
one level advance (firing the hook with the advanced level), and resets
the window to `value` and the reset reading. -/
def update_user_xp (cfg : Config) (db : DB) (mem : Member) (value : ℚ)
    (duel : Bool) (clk : ClockReads) : EngineResult :=
  let start : Config × Window :=
    match getEntry cfg mem.name with
    | some w => (cfg, w)
    | none =>
        ((setEntry cfg mem.name ⟨value, clk.tCreate⟩ : Config),
          (⟨value, clk.tCreate⟩ : Window))
  let cfg1 := start.1
  let user := start.2
  let diff := clk.tDiff - user.last_update
  if duel = true ∨ 0 < diff then
    let min_diff := diff / 60
    if duel = false ∧ min_diff ≤ TIMER_MINUTES then
      if user.value < UPDATE_CAP then
        ⟨(setEntry cfg1 mem.name ⟨user.value + value, user.last_update⟩ : Config), db, []⟩
      else
        ⟨cfg1, db, []⟩
    else
      let r1 := db_update_user_xp db mem.name user.value
      let after :=
        if level_up r1.2.xp (r1.2.level + 1) then
          let r2 := db_update_user_level r1.1 mem.name
          (r2.1, [(mem.name, r2.2.level)])
        else (r1.1, ([] : List (String × ℕ)))
      ⟨(setEntry cfg1 mem.name ⟨value, clk.tReset⟩ : Config), after.1, after.2⟩
  else
    ⟨cfg1, db, []⟩

/-- The storage reconciliation step at the head of `RPG.sync_user_xp`:
the `try` flushes the in-memory window value to storage when a window
exists; otherwise (`except`/`finally`) the stored record is fetched or
lazily created.  Returns the storage state and the `new_user` record. -/
def sync_reconciled (cfg : Config) (db : DB) (mem : Member) : DB × DBUser :=
  match getEntry cfg mem.name with
  | some w => db_update_user_xp db mem.name w.value
  | none => db_get_user db mem.name

/-- `RPG.sync_user_xp(member)` from rpg.py, returning the new storage state
and the level-up hook firings.  After reconciling, when the member's status
is "online" and the stored xp clears the next level, the code calls
`database.update_user_level(member)` twice (the first result is discarded;
the inner `if` repeats the outer status test) and fires the hook once with
the level returned by the second call. -/
def sync_user_xp (cfg : Config) (db : DB) (mem : Member) :
    DB × List (String × ℕ) :=
  let r := sync_reconciled cfg db mem
  if mem.status == "online" && level_up r.2.xp (r.2.level + 1) then
    let r1 := db_update_user_level r.1 mem.name
    if mem.status == "online" then
      let r2 := db_update_user_level r1.1 mem.name
      (r2.1, [(mem.name, r2.2.level)])
    else (r1.1, [])
  else (r.1, [])

/-- Iterates `update_user_xp` over a list of calls
`(value, duel, clock readings)`, threading config and storage and
concatenating the hook firings (a harness for claims about call
sequences). -/
def runWindowCalls (cfg : Config) (db : DB) (mem : Member)
    (calls : List (ℚ × Bool × ClockReads)) : EngineResult :=
  match calls with
  | [] => ⟨cfg, db, []⟩
  | (v, duel, clk) :: rest =>
      let r := update_user_xp cfg db mem v duel clk
      let r' := runWindowCalls r.config r.db mem rest
      ⟨r'.config, r'.db, r.events ++ r'.events⟩

/-! ### RPG cog (src/cogs/rpg/rpg_cog.py) -/

/-- The instance attributes that `RPG.__init__` in rpg.py actually sets:
`self.config` and `self.on_user_level_up`. -/
def rpg_init_attribute_names : List String := ["config", "on_user_level_up"]

/-- The attribute of the `rpg` engine object that `BunkRPG.__init__` in
rpg_cog.py reads in order to subscribe its handler:
`rpg.on_user_level += self.ding`. -/
def bunkrpg_subscription_attribute : String := "on_user_level"

/-- `BunkRPG.ding(member, value)` from rpg_cog.py: unless the member is
named "fugwenna", announce the level-up to the general channel; returns the
announced text, or `none` when no announcement is made. -/
def ding (member_name member_mention : String) (value : ℕ) : Option String :=
  if member_name ≠ "fugwenna" then
    some (":bell: DING! " ++ member_mention ++ " has advanced to level "
      ++ toString value ++ "!")
  else none

/-! ### Twitch stream tracker (src/cogs/games/twitch_cog.py) -/

/-- `TwitchCog.rm_unwanted_messages_predicate(message)` from
twitch_cog.py; `msg_stream_list`/`msg_help` are the two tracked status
messages (`none` models Python `None`, falsy), `message_id` is
`message.id`. -/
def rm_unwanted_messages_predicate (msg_stream_list msg_help : Option ℕ)
    (message_id : ℕ) : Bool :=
  match msg_stream_list with
  | none => true
  | some sl =>
    match msg_help with
    | none => true
    | some hm => decide (message_id ≠ sl) && decide (message_id ≠ hm)

/-- `TwitchCog.rm_msg(msg)` from twitch_cog.py.  Returns `some b`, where
`b` says whether the message was deleted, or `none` when the Python code
raises (reading `.id` of a still-`None` tracked message).  The nesting
mirrors Python's evaluation order: the channel test first, then
`msg.id != self.msg_stream_list.id`, and only if that is true
`msg.id != self.msg_help.id`. -/
def rm_msg (msg_stream_list msg_help : Option ℕ)
    (streams_channel_id msg_channel_id message_id : ℕ) : Option Bool :=
  if msg_channel_id = streams_channel_id then
    match msg_stream_list with
    | none => none
    | some sl =>
      if message_id ≠ sl then
        match msg_help with
        | none => none
        | some hm => some (decide (message_id ≠ hm))
      else some false
  else some false

/-- A followed-stream record of the `streams` collection. -/
structure StreamRec where
  name : String
  added_by : String
deriving DecidableEq

/-- The recoverable `BunkException` failures the `stream` command raises. -/
inductive StreamCmdError where
  | enterName : StreamCmdError
  | alreadyAdded (sname : String) : StreamCmdError
  | cannotFind (sname : String) : StreamCmdError
deriving DecidableEq

/-- Python's `str.split("/")`: cut the character list at every slash,
keeping empty segments (always at least one segment). -/
def splitSlash (cs : List Char) : List (List Char) :=
  match cs with
  | [] => [[]]
  | c :: rest =>
    let r := splitSlash rest
    if c = '/' then [] :: r
    else
      match r with
      | [] => [[c]]
      | g :: gs => (c :: g) :: gs

/-- `params[0].split("/")` and taking `param_split[len(param_split) - 1]`
from the `stream` command. -/
def sname_of_param (p : String) : String :=
  String.mk ((splitSlash p.data).getLastD [])

/-- Result of one `stream` command invocation: the `streams` collection
after the call and the raised recoverable error, if any. -/
structure StreamCmdResult where
  streams : List StreamRec
  err : Option StreamCmdError
deriving DecidableEq

/-- `TwitchCog.stream(ctx)` from twitch_cog.py, restricted to its command
parameters, the `streams` collection and the platform name-resolution step
(`resolved_ids` models `twitch_client.users.translate_usernames_to_ids`);
message edits/replies and the final stream-list refresh are I/O with no
effect on the collection.  `database.streams.get(Query().name == sname)`
(storage not in the tree) follows the spec's §4.4 contract: look up a
single record by exact name match; `insert` appends. -/
def stream_cmd (params : List String) (streams : List StreamRec)
    (resolved_ids : String → List ℕ) (author : String) : StreamCmdResult :=
  match params with
  | [] => ⟨streams, some .enterName⟩
  | p :: _ =>
    let sname := sname_of_param p
    match streams.find? (fun s => s.name == sname) with
    | some _ => ⟨streams, some (.alreadyAdded sname)⟩
    | none =>
      if (resolved_ids sname).length = 0 then ⟨streams, some (.cannotFind sname)⟩
      else ⟨streams ++ [⟨sname, author⟩], none⟩

/-! ### Custom game base (src/game/custom_game.py) -/

/-- `CustomGame` state: the `is_cancelled` flag (the owning channel is
identified implicitly; `cancel_game` deletes it). -/
structure CustomGame where
  is_cancelled : Bool
deriving DecidableEq

/-- `CustomGame.set_defaults`: `self.is_cancelled = False`. -/
def set_defaults : CustomGame := ⟨false⟩

/-- `CustomGame.is_cancel(msg)` from custom_game.py: lower-case the
message content; on exactly "cancel", set the flag and invoke
`cancel_game` (which deletes the owning channel).  Returns the new state
and whether the channel deletion was invoked. -/
def is_cancel (g : CustomGame) (content : String) : CustomGame × Bool :=
  let l_content := content.toLower
  if l_content == "cancel" then ({ g with is_cancelled := true }, true)
  else (g, false)

/-! ### Connect-Four cog (src/game/connect4/connectfour_cog.py) -/

/-- Outcome of one `ConnectFourCog.get_answer(message)` dispatch: the
listener ignores the message, forwards it to the head of the active-games
list, or hits the `self.games[0]` lookup on an empty list (Python
`IndexError`). -/
inductive AnswerOutcome where
  | ignored : AnswerOutcome
  | forwardedTo (game : ℕ) : AnswerOutcome
  | emptyIndexError : AnswerOutcome
deriving DecidableEq

/-- `ConnectFourCog.get_answer(message)` from connectfour_cog.py: for a
non-bot author in the channel literally named "connect4-fugwenna", the
message is deleted and forwarded to `self.games[0]`; games are represented
by identifiers in the in-process list. -/
def get_answer (author_is_bot : Bool) (channel_name : String)
    (games : List ℕ) : AnswerOutcome :=
  if author_is_bot then .ignored
  else if channel_name == "connect4-fugwenna" then
    match games with
    | [] => .emptyIndexError
    | g :: _ => .forwardedTo g
  else .ignored

/-! ### Helper lemmas -/

theorem getEntry_setEntry_self {α : Type} (l : List (String × α)) (k : String) (v : α) :
    getEntry (setEntry l k v) k = some v := by
  induction l with
  | nil => simp [getEntry, setEntry]
  | cons h t ih =>
      obtain ⟨k', v'⟩ := h
      by_cases hk : k' = k
      · simp [getEntry, setEntry, hk]
      · simp [getEntry, setEntry, hk, ih]

theorem db_get_user_entry (db : DB) (m : String) :
    getEntry (db_get_user db m).1 m = some (db_get_user db m).2 := by
  cases h : getEntry db m with
  | some u => simp [db_get_user, h]
  | none => simp [db_get_user, h, getEntry_setEntry_self]

theorem db_update_user_xp_entry (db : DB) (m : String) (v : ℚ) :
    getEntry (db_update_user_xp db m v).1 m = some (db_update_user_xp db m v).2 := by
  simp [db_update_user_xp, getEntry_setEntry_self]

theorem sync_reconciled_entry (cfg : Config) (db : DB) (mem : Member) :
    getEntry (sync_reconciled cfg db mem).1 mem.name =
      some (sync_reconciled cfg db mem).2 := by
  cases h : getEntry cfg mem.name with
  | some w => simp [sync_reconciled, h, db_update_user_xp_entry]
  | none => simp [sync_reconciled, h, db_get_user_entry]

theorem db_update_user_level_of_entry (db : DB) (m : String) (u : DBUser)
    (h : getEntry db m = some u) :
    db_update_user_level db m =
      (setEntry db m (if level_up u.xp (u.level + 1) then ⟨u.xp, u.level + 1⟩ else u),
       if level_up u.xp (u.level + 1) then ⟨u.xp, u.level + 1⟩ else u) := by
  simp [db_update_user_level, db_get_user, h]

theorem rat_floor_eq_int_floor (q : ℚ) : Rat.floor q = ⌊q⌋ :=
  (Rat.floor_def' q).trans Rat.floor_def.symm

theorem pyRound2_natCast_half (L : ℕ) : pyRound2 ((L : ℚ) / 2) = (L : ℚ) / 2 := by
  have hy : ((L : ℚ) / 2) * 100 = ((50 * L : ℕ) : ℚ) := by push_cast; ring
  have hfl : Rat.floor (((50 * L : ℕ) : ℚ)) = ((50 * L : ℕ) : ℤ) := by
    rw [rat_floor_eq_int_floor, Int.floor_natCast]
  simp only [pyRound2, hy, hfl]
  have hfrac : ((50 * L : ℕ) : ℚ) - (((50 * L : ℕ) : ℤ) : ℚ) = 0 := by push_cast; ring
  rw [hfrac]
  have h2 : (0 : ℚ) < 1 / 2 := by norm_num
  rw [if_pos h2]
  push_cast
  ring

/-- Claim C6: for every non-negative integer L, `calc_req_xp L` equals
`5*L*L - 5*L + round(L/2, 2)`, whose round term evaluates to `L/2` exactly;
in particular `calc_req_xp 1 = 0.5`, `calc_req_xp 2 = 11.0` and
`calc_req_xp 10 = 455.0`. -/
theorem claim_C6_leveling_formula :
    (∀ L : ℕ, calc_req_xp L = 5 * (L : ℚ) * L - 5 * L + (L : ℚ) / 2) ∧
    calc_req_xp 1 = 1 / 2 ∧ calc_req_xp 2 = 11 ∧ calc_req_xp 10 = 455 := by
  refine ⟨fun L => ?_, by decide, by decide, by decide⟩
  unfold calc_req_xp XP_CONST
  rw [pyRound2_natCast_half]

/-- Claim C9: `CustomGame.is_cancel` sets the `is_cancelled` flag and
invokes channel deletion precisely when the lower-cased message content is
exactly "cancel"; for any other content the flag stays false (from the
`set_defaults` initial state) and no deletion occurs. -/
theorem claim_C9_is_cancel (content : String) :
    ((is_cancel set_defaults content).1.is_cancelled = true ↔
      content.toLower = "cancel") ∧
    ((is_cancel set_defaults content).2 = true ↔ content.toLower = "cancel") := by
  by_cases h : content.toLower = "cancel"
  · simp [is_cancel, h]
  · simp [is_cancel, set_defaults, h]

/-- Claim C10: in `ConnectFourCog.get_answer`, a non-bot message in the
channel named "connect4-fugwenna" while the active-games list is empty
reaches the `self.games[0]` index of the empty list (the error branch is
reachable); with at least one game in the list the handler never hits that
error. -/
theorem claim_C10_empty_games_index :
    get_answer false "connect4-fugwenna" [] = .emptyIndexError ∧
    (∀ (b : Bool) (c : String) (g : ℕ) (gs : List ℕ),
      get_answer b c (g :: gs) ≠ .emptyIndexError) := by
  refine ⟨rfl, fun b c g gs => ?_⟩
  cases b <;> by_cases h : c == "connect4-fugwenna" <;> simp [get_answer, h]

/-- Claim C3 (amended): the purge predicate returns true for a message iff
the message's id differs from both tracked status-message ids (it marks
messages for removal by the purge rather than for retention); when either
tracked status message does not yet exist the predicate returns true for
every message. -/
theorem claim_C3_purge_predicate (sl hm m : ℕ) :
    (rm_unwanted_messages_predicate (some sl) (some hm) m = true ↔
      m ≠ sl ∧ m ≠ hm) ∧
    (∀ (b : Option ℕ) (m' : ℕ), rm_unwanted_messages_predicate none b m' = true) ∧
    (∀ (s m' : ℕ), rm_unwanted_messages_predicate (some s) none m' = true) := by
  refine ⟨?_, fun b m' => rfl, fun s m' => rfl⟩
  simp [rm_unwanted_messages_predicate]

/-- Claim C3 counterexample: with both tracked messages set (ids 1 and 2),
the predicate does not keep (return true for) the tracked message with
id 1, refuting "keeps a message iff it is one of the two tracked ids". -/
theorem claim_C3_counterexample :
    ¬ (rm_unwanted_messages_predicate (some 1) (some 2) 1 = true ↔
        (1 = 1 ∨ 1 = 2)) := by decide

/-- Claim C4: the attribute `on_user_level` that `BunkRPG.__init__` reads
to subscribe `ding` is not among the attributes `RPG.__init__` defines
(the engine's hook is `on_user_level_up`), so the subscription raises and
`ding` is never attached; `ding` itself would announce to the general
channel for any member not named "fugwenna" and stay silent for
"fugwenna". -/
theorem claim_C4_subscription_mismatch :
    bunkrpg_subscription_attribute ∉ rpg_init_attribute_names ∧
    (∀ (mention : String) (v : ℕ), ding "fugwenna" mention v = none) ∧
    ding "alice" "@alice" 3 =
      some ":bell: DING! @alice has advanced to level 3!" := by
  refine ⟨by decide, fun mention v => by simp [ding], rfl⟩

/-- Claim C7: a `stream` command invocation whose argument resolves to a
name already present in the followed-stream collection fails with the
recoverable "already added" error, performs no insert, and leaves the
collection unchanged. -/
theorem claim_C7_duplicate_stream (p : String) (rest : List String)
    (streams : List StreamRec) (resolved_ids : String → List ℕ)
    (author : String) (s : StreamRec)
    (h : streams.find? (fun s0 => s0.name == sname_of_param p) = some s) :
    stream_cmd (p :: rest) streams resolved_ids author =
      ⟨streams, some (.alreadyAdded (sname_of_param p))⟩ := by
  simp [stream_cmd, h]

theorem claim_C7_duplicate_stream_witness :
    stream_cmd ["https://twitch.tv/foo"] [⟨"foo", "bob"⟩] (fun _ => [1]) "eve" =
      ⟨[⟨"foo", "bob"⟩], some (.alreadyAdded (sname_of_param "https://twitch.tv/foo"))⟩ :=
  claim_C7_duplicate_stream "https://twitch.tv/foo" [] [⟨"foo", "bob"⟩]
    (fun _ => [1]) "eve" ⟨"foo", "bob"⟩ (by decide)

/-- Claim C8: with both tracked status messages existing, `rm_msg` deletes
exactly the messages posted in the tracker channel whose id differs from
both tracked ids; the two tracked messages themselves are never deleted,
and messages in any other channel are never deleted (whatever the tracked
state). -/
theorem claim_C8_rm_msg (sl hm sid cid mid : ℕ) :
    (cid = sid → mid ≠ sl → mid ≠ hm →
      rm_msg (some sl) (some hm) sid cid mid = some true) ∧
    (mid = sl ∨ mid = hm → rm_msg (some sl) (some hm) sid cid mid = some false) ∧
    (cid ≠ sid → ∀ (a b : Option ℕ), rm_msg a b sid cid mid = some false) := by
  refine ⟨fun h1 h2 h3 => ?_, fun h => ?_, fun h a b => ?_⟩
  · simp [rm_msg, h1, h2, h3]
  · rcases h with h | h
    · simp [rm_msg, h]
    · by_cases hsl : mid = sl
      · simp [rm_msg, hsl]
      · simp [rm_msg, hsl, h]
  · simp [rm_msg, h]

theorem claim_C8_rm_msg_witness :
    rm_msg (some 1) (some 2) 9 9 5 = some true ∧
    rm_msg (some 1) (some 2) 9 9 1 = some false ∧
    rm_msg (some 1) (some 2) 9 7 5 = some false :=
  ⟨(claim_C8_rm_msg 1 2 9 9 5).1 rfl (by decide) (by decide),
   (claim_C8_rm_msg 1 2 9 9 1).2.1 (Or.inl rfl),
   (claim_C8_rm_msg 1 2 9 7 5).2.2 (by decide) (some 1) (some 2)⟩

theorem setEntry_setEntry {α : Type} (l : List (String × α)) (k : String) (v v' : α) :
    setEntry (setEntry l k v) k v' = setEntry l k v' := by
  induction l with
  | nil => simp [setEntry]
  | cons h t ih =>
      obtain ⟨k', w⟩ := h
      by_cases hk : k' = k
      · simp [setEntry, hk]
      · simp [setEntry, hk, ih]

theorem update_user_xp_fresh (cfg : Config) (db : DB) (mem : Member) (v : ℚ)
    (clk : ClockReads) (h : getEntry cfg mem.name = none)
    (hwin : clk.tDiff ≤ clk.tCreate + 60) :
    (clk.tDiff ≤ clk.tCreate →
      update_user_xp cfg db mem v false clk =
        ⟨setEntry cfg mem.name ⟨v, clk.tCreate⟩, db, []⟩) ∧
    (clk.tCreate < clk.tDiff → v < UPDATE_CAP →
      update_user_xp cfg db mem v false clk =
        ⟨setEntry cfg mem.name ⟨v + v, clk.tCreate⟩, db, []⟩) ∧
    (clk.tCreate < clk.tDiff → ¬ v < UPDATE_CAP →
      update_user_xp cfg db mem v false clk =
        ⟨setEntry cfg mem.name ⟨v, clk.tCreate⟩, db, []⟩) := by
  have hmin : (clk.tDiff - clk.tCreate) / 60 ≤ TIMER_MINUTES := by
    rw [TIMER_MINUTES, div_le_one (by norm_num : (0 : ℚ) < 60)]
    linarith
  refine ⟨fun hle => ?_, fun hlt hv => ?_, fun hlt hv => ?_⟩
  · have hd : ¬ 0 < clk.tDiff - clk.tCreate := by linarith
    simp [update_user_xp, h, hd]
  · have hd : 0 < clk.tDiff - clk.tCreate := by linarith
    simp [update_user_xp, h, hd, hmin, hv, setEntry_setEntry]
  · have hd : 0 < clk.tDiff - clk.tCreate := by linarith
    simp [update_user_xp, h, hd, hmin, hv]

/-- Claim C5 (amended): for a member with no in-memory activity window, one
call to `update_user_xp` with `duel = false` creates a window timestamped
with the creation clock reading and performs no storage write and no hook
firing on that call, provided the invocation's `diff` reading falls within
the window's 1-minute length; the accumulator ends at exactly the given
value when the `diff` reading is not later than the creation reading, but
at twice the value when the `diff` reading is strictly later (the typical
outcome of two consecutive clock reads) and the value is below
`UPDATE_CAP` — the call re-enters the sub-minute accumulation branch for
the window it just created. -/
theorem claim_C5_first_sight (cfg : Config) (db : DB) (mem : Member) (v : ℚ)
    (clk : ClockReads) (h : getEntry cfg mem.name = none)
    (hwin : clk.tDiff ≤ clk.tCreate + 60) :
    (clk.tDiff ≤ clk.tCreate →
      update_user_xp cfg db mem v false clk =
        ⟨setEntry cfg mem.name ⟨v, clk.tCreate⟩, db, []⟩) ∧
    (clk.tCreate < clk.tDiff → v < UPDATE_CAP →
      update_user_xp cfg db mem v false clk =
        ⟨setEntry cfg mem.name ⟨v + v, clk.tCreate⟩, db, []⟩) ∧
    (clk.tCreate < clk.tDiff → ¬ v < UPDATE_CAP →
      update_user_xp cfg db mem v false clk =
        ⟨setEntry cfg mem.name ⟨v, clk.tCreate⟩, db, []⟩) :=
  update_user_xp_fresh cfg db mem v clk h hwin

theorem claim_C5_first_sight_witness :
    update_user_xp [] [] ⟨"alice", "idle"⟩ 5 false ⟨7, 7, 7⟩ =
      ⟨[("alice", ⟨5, 7⟩)], [], []⟩ ∧
    update_user_xp [] [] ⟨"bob", "idle"⟩ 5 false ⟨0, 1, 1⟩ =
      ⟨[("bob", ⟨10, 0⟩)], [], []⟩ :=
  ⟨(claim_C5_first_sight [] [] ⟨"alice", "idle"⟩ 5 ⟨7, 7, 7⟩ rfl (by decide)).1
      (by decide),
    (claim_C5_first_sight [] [] ⟨"bob", "idle"⟩ 5 ⟨0, 1, 1⟩ rfl (by decide)).2.1
      (by decide) (by decide)⟩

/-- Claim C5 counterexample: a first-sight call with value 5 whose `diff`
clock reading (time 1) is later than its creation reading (time 0) leaves
the freshly created window's accumulator at 10, not at the given value 5 —
the source reads the clock again after creating the window, so a strictly
later second reading re-enters the accumulation branch. -/
theorem claim_C5_counterexample :
    update_user_xp [] [] ⟨"alice", "idle"⟩ 5 false ⟨0, 1, 1⟩ =
      ⟨[("alice", ⟨10, 0⟩)], [], []⟩ ∧
    ¬ (update_user_xp [] [] ⟨"alice", "idle"⟩ 5 false ⟨0, 1, 1⟩ =
        ⟨[("alice", ⟨5, 0⟩)], [], []⟩) := by decide

theorem update_in_window (cfg : Config) (db : DB) (mem : Member) (v : ℚ)
    (clk : ClockReads) (w : Window) (hw : getEntry cfg mem.name = some w)
    (ht : clk.tDiff ≤ w.last_update + 60) :
    update_user_xp cfg db mem v false clk =
      if 0 < clk.tDiff - w.last_update then
        (if w.value < UPDATE_CAP then
          (⟨setEntry cfg mem.name ⟨w.value + v, w.last_update⟩, db, []⟩ : EngineResult)
        else ⟨cfg, db, []⟩)
      else ⟨cfg, db, []⟩ := by
  have hmin : (clk.tDiff - w.last_update) / 60 ≤ TIMER_MINUTES := by
    rw [TIMER_MINUTES, div_le_one (by norm_num : (0 : ℚ) < 60)]
    linarith
  by_cases hd : 0 < clk.tDiff - w.last_update
  · rw [if_pos hd]
    by_cases hv : w.value < UPDATE_CAP
    · rw [if_pos hv]
      simp [update_user_xp, hw, hd, hmin, hv]
    · rw [if_neg hv]
      simp [update_user_xp, hw, hd, hmin, hv]
  · rw [if_neg hd]
    simp [update_user_xp, hw, hd]

theorem window_cap_invariant (mem : Member) (t0 : ℚ) (clks : List ClockReads)
    (hts : ∀ c ∈ clks, c.tDiff ≤ t0 + 60) (cfg : Config) (db : DB) (k : ℕ)
    (hk : k ≤ 12) (hw : getEntry cfg mem.name = some ⟨5 * k, t0⟩) :
    ∃ k' : ℕ, k' ≤ 12 ∧
      getEntry (runWindowCalls cfg db mem
        (clks.map fun c => (XP_CONST, false, c))).config mem.name =
        some ⟨5 * k', t0⟩ := by
  induction clks generalizing cfg db k with
  | nil => exact ⟨k, hk, by simpa [runWindowCalls] using hw⟩
  | cons c rest ih =>
    have ht : c.tDiff ≤ t0 + 60 := hts c (List.mem_cons_self c rest)
    have hrest : ∀ c' ∈ rest, c'.tDiff ≤ t0 + 60 :=
      fun c' h' => hts c' (List.mem_cons_of_mem c h')
    have hstep := update_in_window cfg db mem XP_CONST c ⟨5 * k, t0⟩ hw (by simpa using ht)
    simp only [List.map_cons, runWindowCalls, hstep]
    by_cases hd : 0 < c.tDiff - t0
    · by_cases hv : (5 * (k : ℚ)) < UPDATE_CAP
      · have hk12 : k < 12 := by
          have h5 : (k : ℚ) < 12 := by rw [UPDATE_CAP] at hv; linarith
          exact_mod_cast h5
        have hval : (5 * (k : ℚ)) + XP_CONST = 5 * ((k + 1 : ℕ) : ℚ) := by
          rw [XP_CONST]; push_cast; ring
        simp only [if_pos hd, if_pos hv, hval]
        exact ih hrest _ db (k + 1) hk12 (getEntry_setEntry_self _ _ _)
      · simp only [if_pos hd, if_neg hv]
        exact ih hrest cfg db k hk hw
    · simp only [if_neg hd]
      exact ih hrest cfg db k hk hw

/-- Claim C1 (amended): for a sequence of `update_user_xp` calls with
`duel = false` and per-call value equal to the per-message grant
`XP_CONST = 5`, all falling within the single 1-minute activity window
opened by the first call, the in-memory accumulator stays at or below
`UPDATE_CAP = 60` after every call (a call whose pre-add accumulator has
reached the cap adds nothing).  The bound holds whatever the clock reads:
the opening call may itself add a second grant when its `diff` reading is
later than its creation reading. -/
theorem claim_C1_window_cap (db : DB) (mem : Member) (clk0 : ClockReads)
    (clks : List ClockReads) (hwin0 : clk0.tDiff ≤ clk0.tCreate + 60)
    (hts : ∀ c ∈ clks, c.tDiff ≤ clk0.tCreate + 60) (w : Window)
    (hw : getEntry (runWindowCalls [] db mem
        ((XP_CONST, false, clk0) :: clks.map fun c => (XP_CONST, false, c))).config
        mem.name = some w) :
    w.value ≤ UPDATE_CAP := by
  have hfresh := update_user_xp_fresh [] db mem XP_CONST clk0 rfl hwin0
  by_cases hd : clk0.tDiff ≤ clk0.tCreate
  · have h0 := hfresh.1 hd
    simp only [runWindowCalls, h0] at hw
    obtain ⟨k', hk', hfinal⟩ := window_cap_invariant mem clk0.tCreate clks hts
      (setEntry [] mem.name ⟨XP_CONST, clk0.tCreate⟩) db 1 (by norm_num)
      (by rw [getEntry_setEntry_self]; norm_num [XP_CONST])
    rw [hfinal] at hw
    obtain rfl := Option.some.inj hw
    show (5 : ℚ) * k' ≤ UPDATE_CAP
    have hc : (k' : ℚ) ≤ 12 := by exact_mod_cast hk'
    rw [UPDATE_CAP]
    linarith
  · push_neg at hd
    have hvlt : XP_CONST < UPDATE_CAP := by rw [XP_CONST, UPDATE_CAP]; norm_num
    have h0 := hfresh.2.1 hd hvlt
    simp only [runWindowCalls, h0] at hw
    obtain ⟨k', hk', hfinal⟩ := window_cap_invariant mem clk0.tCreate clks hts
      (setEntry [] mem.name ⟨XP_CONST + XP_CONST, clk0.tCreate⟩) db 2 (by norm_num)
      (by rw [getEntry_setEntry_self]; norm_num [XP_CONST])
    rw [hfinal] at hw
    obtain rfl := Option.some.inj hw
    show (5 : ℚ) * k' ≤ UPDATE_CAP
    have hc : (k' : ℚ) ≤ 12 := by exact_mod_cast hk'
    rw [UPDATE_CAP]
    linarith

set_option maxRecDepth 4000 in
theorem claim_C1_window_cap_witness :
    ((⟨60, 0⟩ : Window)).value ≤ UPDATE_CAP :=
  claim_C1_window_cap [] ⟨"alice", "online"⟩ ⟨0, 0, 0⟩
    [⟨1, 1, 1⟩, ⟨2, 2, 2⟩, ⟨3, 3, 3⟩, ⟨4, 4, 4⟩, ⟨5, 5, 5⟩, ⟨6, 6, 6⟩,
     ⟨7, 7, 7⟩, ⟨8, 8, 8⟩, ⟨9, 9, 9⟩, ⟨10, 10, 10⟩, ⟨11, 11, 11⟩, ⟨12, 12, 12⟩]
    (by decide) (by decide) ⟨60, 0⟩ (by decide)

/-- Claim C1 counterexample: two calls with value 59 inside one 1-minute
window (creation at time 0, second call at time 30) leave the accumulator
at 118, beyond `UPDATE_CAP = 60` — the code tests the cap only before
adding, so excess is not dropped. -/
theorem claim_C1_counterexample :
    getEntry (runWindowCalls [] [] ⟨"alice", "online"⟩
      [(59, false, ⟨0, 0, 0⟩), (59, false, ⟨30, 30, 30⟩)]).config "alice" =
      some ⟨118, 0⟩ ∧
    ¬ ((118 : ℚ) ≤ UPDATE_CAP) := by decide

/-- Claim C2 (amended): after `sync_user_xp` reconciles the in-memory
window to storage, if the member is "online" and the reconciled stored xp
is at least `calc_req_xp(stored level + 1)` but still below
`calc_req_xp(stored level + 2)`, then exactly one level increment is
persisted and the hook fires exactly once with the member and the
incremented level; if the member's status is not "online", no level change
is persisted beyond reconciliation and the hook does not fire. -/
theorem claim_C2_sync_level (cfg : Config) (db : DB) (mem : Member) :
    (mem.status = "online" →
      calc_req_xp ((sync_reconciled cfg db mem).2.level + 1) ≤
          (sync_reconciled cfg db mem).2.xp →
      (sync_reconciled cfg db mem).2.xp <
          calc_req_xp ((sync_reconciled cfg db mem).2.level + 1 + 1) →
      (sync_user_xp cfg db mem).2 =
          [(mem.name, (sync_reconciled cfg db mem).2.level + 1)] ∧
        getEntry (sync_user_xp cfg db mem).1 mem.name =
          some ⟨(sync_reconciled cfg db mem).2.xp,
                (sync_reconciled cfg db mem).2.level + 1⟩) ∧
    (mem.status ≠ "online" →
      sync_user_xp cfg db mem = ((sync_reconciled cfg db mem).1, [])) := by
  constructor
  · intro hon h2 h3
    have hbeq : (mem.status == "online") = true := by
      rw [hon]; exact beq_self_eq_true "online"
    have hlvl1 : level_up (sync_reconciled cfg db mem).2.xp
        ((sync_reconciled cfg db mem).2.level + 1) = true := by
      rw [level_up]; exact decide_eq_true h2
    have hlvl2 : level_up (sync_reconciled cfg db mem).2.xp
        ((sync_reconciled cfg db mem).2.level + 1 + 1) = false := by
      rw [level_up]; exact decide_eq_false (not_le.mpr h3)
    have hup1 := db_update_user_level_of_entry (sync_reconciled cfg db mem).1
      mem.name (sync_reconciled cfg db mem).2 (sync_reconciled_entry cfg db mem)
    rw [hlvl1] at hup1
    simp only [if_true] at hup1
    have hup2 := db_update_user_level_of_entry
      (setEntry (sync_reconciled cfg db mem).1 mem.name
        ⟨(sync_reconciled cfg db mem).2.xp, (sync_reconciled cfg db mem).2.level + 1⟩)
      mem.name
      ⟨(sync_reconciled cfg db mem).2.xp, (sync_reconciled cfg db mem).2.level + 1⟩
      (getEntry_setEntry_self _ _ _)
    rw [hlvl2] at hup2
    simp only [if_false] at hup2
    simp only [sync_user_xp, hbeq, hlvl1, Bool.and_self, if_true, hup1, hup2]
    exact ⟨rfl, getEntry_setEntry_self _ _ _⟩
  · intro hoff
    have hbeq : (mem.status == "online") = false := beq_eq_false_iff_ne.mpr hoff
    simp [sync_user_xp, hbeq]

theorem claim_C2_sync_level_witness :
    ((sync_user_xp [] [("alice", ⟨20, 1⟩)] ⟨"alice", "online"⟩).2 =
        [("alice", 2)] ∧
      getEntry (sync_user_xp [] [("alice", ⟨20, 1⟩)] ⟨"alice", "online"⟩).1 "alice" =
        some ⟨20, 2⟩) ∧
    sync_user_xp [] [("bob", ⟨20, 1⟩)] ⟨"bob", "offline"⟩ =
      ((sync_reconciled [] [("bob", ⟨20, 1⟩)] ⟨"bob", "offline"⟩).1, []) :=
  ⟨(claim_C2_sync_level [] [("alice", ⟨20, 1⟩)] ⟨"alice", "online"⟩).1
      rfl (by decide) (by decide),
    (claim_C2_sync_level [] [("bob", ⟨20, 1⟩)] ⟨"bob", "offline"⟩).2 (by decide)⟩

/-- Claim C2 counterexample: an online member with stored xp 100 at stored
level 1 (no window) satisfies the claim's hypothesis (100 is at least
`calc_req_xp 2 = 11`), yet `sync_user_xp` persists two level increments
(level 1 becomes 3, since 100 also clears `calc_req_xp 3 = 31.5` and
`database.update_user_level` is called twice) and fires the hook with
level 3 — not the single increment to level 2 the claim requires. -/
theorem claim_C2_counterexample :
    sync_user_xp [] [("alice", ⟨100, 1⟩)] ⟨"alice", "online"⟩ =
      ([("alice", ⟨100, 3⟩)], [("alice", 3)]) ∧
    ¬ (sync_user_xp [] [("alice", ⟨100, 1⟩)] ⟨"alice", "online"⟩ =
        ([("alice", ⟨100, 2⟩)], [("alice", 2)])) := by decide
